import Mathlib

/-!
# Verification of the lczero-training step orchestration (tf/tfprocess2.py)

A shallow embedding of the training-loop logic of `tf/tfprocess2.py`:
the `Metric` running-mean accumulator, the value-bucket discretizer,
the piecewise learning-rate schedule with warmup, gradient accumulation
and learning-rate scaling, SWA (stochastic weight averaging) updates and
the swap-evaluate-restore pattern, weight loading, and the process-loop
configuration checks.

Exact rational numbers (`ℚ`) stand in for floating-point scalars where the
code's arithmetic is field arithmetic, and real numbers (`ℝ`) where the code
uses square roots, exponentials or logarithms.  Tensor contents are modelled
as flat lists in row-major order, matching how the code manipulates them.
-/

set_option autoImplicit false

namespace LcZero

/-! ### Metric (tfprocess2.py lines 86-117)

A running (sum, count) accumulator for scalar statistics.  The three name
strings are carried verbatim; `merge` asserts equality of `short_name`. -/

structure Metric where
  short_name : String
  long_name : String
  suffix : String
  value : ℚ
  count : ℕ
  deriving DecidableEq

/-- `Metric.__init__`: value starts at 0.0 and count at 0. -/
def Metric.mkNew (short_name long_name suffix : String) : Metric :=
  { short_name := short_name, long_name := long_name, suffix := suffix,
    value := 0, count := 0 }

/-- `Metric.assign`: overwrite with a single observation. -/
def Metric.assign (m : Metric) (v : ℚ) : Metric :=
  { m with value := v, count := 1 }

/-- `Metric.accumulate`: add an observation to the running sum, or `assign`
if the metric is empty. -/
def Metric.accumulate (m : Metric) (v : ℚ) : Metric :=
  if m.count > 0 then { m with value := m.value + v, count := m.count + 1 }
  else m.assign v

/-- `Metric.merge`: pool two accumulators (the code asserts equal
`short_name`; reachability below carries that hypothesis). -/
def Metric.merge (m other : Metric) : Metric :=
  { m with value := m.value + other.value, count := m.count + other.count }

/-- `Metric.get`: running mean, or the raw value (0 under the invariant)
when the count is 0. -/
def Metric.get (m : Metric) : ℚ :=
  if m.count = 0 then m.value else m.value / m.count

/-- `Metric.reset`: back to the empty state. -/
def Metric.reset (m : Metric) : Metric :=
  { m with value := 0, count := 0 }

/-- The metrics reachable through the public `Metric` operations, starting
from construction. -/
inductive Metric.Reachable : Metric → Prop
  | mkNew (s l suf : String) : Metric.Reachable (Metric.mkNew s l suf)
  | assign (m : Metric) (v : ℚ) : Metric.Reachable m →
      Metric.Reachable (m.assign v)
  | accumulate (m : Metric) (v : ℚ) : Metric.Reachable m →
      Metric.Reachable (m.accumulate v)
  | merge (m o : Metric) : Metric.Reachable m → Metric.Reachable o →
      m.short_name = o.short_name → Metric.Reachable (m.merge o)
  | reset (m : Metric) : Metric.Reachable m → Metric.Reachable m.reset

/-! ### Value bucket discretization (tfprocess2.py lines 67-71) -/

/-- Truncation toward zero, the semantics of `tf.cast` from a float to
`tf.int64`. -/
def castToInt64 (q : ℚ) : ℤ :=
  if 0 ≤ q then ⌊q⌋ else ⌈q⌉

/-- `tf.clip_by_value(t, lo, hi)` for integers. -/
def clip_by_value (t lo hi : ℤ) : ℤ :=
  min (max t lo) hi

/-- `make_value_buckets`: project WDL `(win, draw, loss)` onto the scalar
`win·1 + draw·0.5 + loss·0`, scale by `num_buckets`, cast to int64 and clip
into `[0, num_buckets - 1]`. -/
def make_value_buckets (value_wdl : ℚ × ℚ × ℚ) (num_buckets : ℕ) : ℤ :=
  let value := value_wdl.1 * 1 + value_wdl.2.1 * (1 / 2) + value_wdl.2.2 * 0
  let buckets := castToInt64 (value * num_buckets)
  clip_by_value buckets 0 ((num_buckets : ℤ) - 1)

/-! ### Learning-rate schedule (tfprocess2.py lines 652-654 and 1054-1061) -/

/-- Insertion point of `x` in the sorted list `a` after any entries equal to
`x`; models Python's `bisect.bisect_right` on a sorted list, where it equals
the count of elements `≤ x`. -/
def bisect_right (a : List ℕ) (x : ℕ) : ℕ :=
  match a with
  | [] => 0
  | b :: rest => if x < b then 0 else bisect_right rest x + 1

/-- The learning rate computed at the top of `TFProcess.process`:
`lr_values[bisect_right(lr_boundaries, steps % total_steps)]`, then linear
warmup scaling `·(steps+1)/warmup_steps` while `steps < warmup_steps`.
`lr_boundaries` is sorted ascending by `init_net` (line 652). -/
def process_lr (lr_values : List ℚ) (lr_boundaries : List ℕ)
    (total_steps warmup_steps steps : ℕ) : ℚ :=
  let steps_total := steps % total_steps
  let lr := lr_values.getD (bisect_right lr_boundaries steps_total) 0
  if 0 < warmup_steps ∧ steps < warmup_steps then
    lr * ((steps + 1 : ℚ) / (warmup_steps : ℚ))
  else lr

/-! ### SWA running average (tfprocess2.py lines 1304-1309) -/

/-- The SWA accumulator: one shadow weight per model weight plus the
floating-point accumulation count `swa_count`. -/
structure SwaState where
  swa_weights : List ℚ
  swa_count : ℚ
  deriving DecidableEq

/-- `TFProcess.update_swa`: for each `(w, swa)` pair assign
`swa·(n/(n+1)) + w·(1/(n+1))`, then cap the count with
`n ← min(n+1, swa_max_n)`. -/
def update_swa (swa_max_n : ℚ) (model_weights : List ℚ) (s : SwaState) : SwaState :=
  let num := s.swa_count
  { swa_weights :=
      List.zipWith
        (fun w swa => swa * (num / (num + 1)) + w * (1 / (num + 1)))
        model_weights s.swa_weights,
    swa_count := min (num + 1) swa_max_n }

/-- `k` consecutive `update_swa` calls against fixed live weights. -/
def iterate_update_swa (swa_max_n : ℚ) (model_weights : List ℚ) :
    ℕ → SwaState → SwaState
  | 0, s => s
  | k + 1, s => iterate_update_swa swa_max_n model_weights k
      (update_swa swa_max_n model_weights s)

/-! ### Training-process state for test passes and weight swaps
(tfprocess2.py lines 775-785, 1130-1139, 1207-1219, 1311-1317)

`calculate_test_summaries` consumes one batch from the test iterator per
loop iteration; the iterator raises `StopIteration` once exhausted, and in
that case Python propagates the exception with all mutations so far kept.
Metric accumulation and summary writing touch neither the live nor the SWA
weights and are not represented.  `Except TrainState TrainState` returns
the post-state normally and carries the mutated state out on an
exception. -/

structure TrainState where
  weights : List ℚ
  swa_weights : List ℚ
  test_stream : ℕ
  tested : ℕ
  saved : List (List ℚ)
  deriving DecidableEq

/-- `TFProcess.calculate_test_summaries`: evaluate `test_batches`
micro-batches, pulling each from the test iterator; raises once the
iterator is exhausted. -/
def calculate_test_summaries (test_batches : ℕ) (s : TrainState) :
    Except TrainState TrainState :=
  if test_batches ≤ s.test_stream then
    Except.ok { s with test_stream := s.test_stream - test_batches,
                       tested := s.tested + test_batches }
  else
    Except.error { s with test_stream := 0, tested := s.tested + s.test_stream }

/-- `TFProcess.calculate_swa_summaries`: back up the live weights, copy the
SWA weights over them, evaluate, then write the backup back.  The code has
no try/finally, so an exception in the evaluation skips the restore. -/
def calculate_swa_summaries (test_batches : ℕ) (s : TrainState) :
    Except TrainState TrainState :=
  let backup := s.weights
  let swapped := { s with weights := s.swa_weights }
  match calculate_test_summaries test_batches swapped with
  | Except.ok s2 => Except.ok { s2 with weights := backup }
  | Except.error s2 => Except.error s2

/-- `TFProcess.save_leelaz_weights`: serialize the current live weights. -/
def save_leelaz_weights (s : TrainState) : TrainState :=
  { s with saved := s.saved ++ [s.weights] }

/-- `TFProcess.save_swa_weights`: back up the live weights, copy the SWA
weights over them, save, then write the backup back. -/
def save_swa_weights (s : TrainState) : TrainState :=
  let backup := s.weights
  let swapped := { s with weights := s.swa_weights }
  let s2 := save_leelaz_weights swapped
  { s2 with weights := backup }

/-- `TFProcess.process_loop` halves `test_batches` up front when SWA is
enabled, splitting them between the regular and the SWA test pass
(lines 776-778). -/
def process_loop_test_batches (swa_enabled : Bool) (test_batches : ℕ) : ℕ :=
  if swa_enabled then test_batches / 2 else test_batches

/-! ### Batch-size validation in process_loop (tfprocess2.py lines 780-785) -/

/-- A Python exception raised by the batch-size check. -/
inductive PyError where
  | attributeError (attr : String)
  | valueError (msg : String)
  deriving DecidableEq

/-- The configuration read by the `process_loop` batch-size check:
`virtual_batch_size` from `__init__` (line 164, default `None`) and
`training.num_batch_splits` (default 1). -/
structure ProcessLoopCfg where
  virtual_batch_size : Option ℕ
  num_batch_splits : ℕ
  deriving DecidableEq

/-- Attribute lookup on the `TFProcess` object for the names the check
dereferences: `__init__` defines `virtual_batch_size` (line 164) and never
defines any attribute named `virtual_batch_sizes`, so looking that name up
raises `AttributeError`. -/
def tfprocess_getattr (cfg : ProcessLoopCfg) (attr : String) : Option ℕ :=
  if attr = "virtual_batch_size" then cfg.virtual_batch_size else none

/-- The ghost-batch-norm check at the top of `TFProcess.process_loop`:
`if self.virtual_batch_size and batch_size % self.virtual_batch_size != 0`
(Python truthiness: `None` and `0` skip the check), then the error branch
evaluates `self.virtual_batch_sizes * num_batch_splits` to build a
`ValueError` message. -/
def process_loop_batch_check (cfg : ProcessLoopCfg) (batch_size : ℕ) :
    Except PyError Unit :=
  match cfg.virtual_batch_size with
  | none => Except.ok ()
  | some vbs =>
    if vbs ≠ 0 ∧ batch_size % vbs ≠ 0 then
      match tfprocess_getattr cfg "virtual_batch_sizes" with
      | none => Except.error (PyError.attributeError "virtual_batch_sizes")
      | some v =>
          Except.error (PyError.valueError
            ("batch_size must be a multiple of " ++
              toString (v * cfg.num_batch_splits)))
    else Except.ok ()

/-! ### Weight loading (tfprocess2.py lines 687-762)

`TFProcess.replace_weights` walks `self.model.weights`; for each tensor it
looks its name up in the protobuf-derived dictionary, checks the element
count against the tensor's shape product, and assigns the (layout-converted)
values.  "renorm" tensors are skipped outright.  A missing name or a wrong
element count raises `KeyError` unless `ignore_errors` is set, in which case
the message is printed and the tensor keeps its previous value. -/

/-- A model weight tensor: TF name, TF shape, and flat row-major contents. -/
structure ModelWeight where
  name : String
  shape : List ℕ
  value : List ℚ
  deriving DecidableEq

/-- Character-list version of `str.startswith`. -/
def startsWithChars : List Char → List Char → Bool
  | [], _ => true
  | _ :: _, [] => false
  | p :: ps, t :: ts => p == t && startsWithChars ps ts

/-- Character-list version of Python's substring operator `in`. -/
def containsChars (pat : List Char) : List Char → Bool
  | [] => startsWithChars pat []
  | t :: ts => startsWithChars pat (t :: ts) || containsChars pat ts

/-- Python's `"renorm" in name` substring test. -/
def name_has_renorm (name : String) : Bool :=
  containsChars "renorm".toList name.toList

/-- `reduce(operator.mul, shape, 1)`: the element count of a shape. -/
def shape_size (shape : List ℕ) : ℕ :=
  shape.foldl (· * ·) 1

/-- The rule50 input-plane rescale (lines 731-737): multiply by 99 every
element whose flat index `i` satisfies `(i % (112*9)) // 9 == 109`. -/
def rule50_rescale (vals : List ℚ) : List ℚ :=
  vals.enum.map (fun p => if p.1 % (112 * 9) / 9 = 109 then p.2 * 99 else p.2)

/-- Conversion of a fully-connected kernel (lines 750-758): the protobuf
stores `[out, in]`; reshape to `[s1, s0]` and transpose with perm `[1, 0]`
into the TF shape `[s0, s1]`. -/
def transpose2d (s0 s1 : ℕ) (v : List ℚ) : List ℚ :=
  (List.range (s0 * s1)).map (fun k => v.getD (k % s1 * s0 + k / s1) 0)

/-- Conversion of a convolution kernel (lines 739-749): the protobuf stores
`[out, in, H, W] = [s3, s2, s0, s1]`; transposing with perm `[2, 3, 1, 0]`
yields the TF shape `[s0, s1, s2, s3]`, so the TF element at multi-index
`(a, b, c, d)` is the protobuf element at `((d·s2 + c)·s0 + a)·s1 + b`. -/
def transpose4d (s0 s1 s2 s3 : ℕ) (v : List ℚ) : List ℚ :=
  (List.range (s0 * s1 * s2 * s3)).map (fun k =>
    let a := k / (s1 * s2 * s3)
    let b := k / (s2 * s3) % s1
    let c := k / s3 % s2
    let d := k % s3
    v.getD (((d * s2 + c) * s0 + a) * s1 + b) 0)

/-- The value actually assigned to a non-mismatched tensor: the rule50
rescale applies only to `input/conv2d/kernel:0` when the loaded network's
input format predates `INPUT_112_WITH_CANONICALIZATION_HECTOPLIES`
(`input_older` is the result of that comparison); 4-d and 2-d kernels are
layout-transposed, everything else is assigned as-is. -/
def convert_weight (input_older : Bool) (name : String) (shape : List ℕ)
    (vals : List ℚ) : List ℚ :=
  match shape with
  | [s0, s1, s2, s3] =>
      let vals' :=
        if name = "input/conv2d/kernel:0" ∧ input_older then
          rule50_rescale vals
        else vals
      transpose4d s0 s1 s2 s3 vals'
  | [s0, s1] => transpose2d s0 s1 vals
  | _ => vals

/-- A weight-loading mismatch for tensor `w`: its name has no value in the
loaded protobuf, or the loaded value's element count differs from the
tensor's shape product. -/
def weight_mismatch (new_weights : List (String × List ℚ)) (w : ModelWeight) :
    Bool :=
  match List.lookup w.name new_weights with
  | none => true
  | some nv => shape_size w.shape ≠ nv.length

/-- The tensor-assignment loop of `TFProcess.replace_weights`
(lines 703-762): "renorm" tensors are skipped; a mismatch raises `KeyError`
unless `ignore_errors`, in which case the tensor is skipped; otherwise the
tensor is assigned the converted protobuf values. -/
def replace_weights_loop (input_older : Bool)
    (new_weights : List (String × List ℚ)) (ignore_errors : Bool) :
    List ModelWeight → Except String (List ModelWeight)
  | [] => Except.ok []
  | w :: rest =>
    if name_has_renorm w.name then
      (replace_weights_loop input_older new_weights ignore_errors rest).map
        (w :: ·)
    else
      match List.lookup w.name new_weights with
      | none =>
          if ignore_errors then
            (replace_weights_loop input_older new_weights ignore_errors
              rest).map (w :: ·)
          else
            Except.error
              ("No values for tensor " ++ w.name ++ " in protobuf")
      | some nv =>
          if shape_size w.shape ≠ nv.length then
            if ignore_errors then
              (replace_weights_loop input_older new_weights ignore_errors
                rest).map (w :: ·)
            else
              Except.error ("Tensor " ++ w.name ++ " has wrong length.")
          else
            (replace_weights_loop input_older new_weights ignore_errors
              rest).map
              ({ w with value :=
                  convert_weight input_older w.name w.shape nv } :: ·)

/-- The outcome `replace_weights` leaves a single tensor in when no error is
raised: skipped tensors keep their prior value, the rest are assigned. -/
def replace_weights_result (input_older : Bool)
    (new_weights : List (String × List ℚ)) (w : ModelWeight) : ModelWeight :=
  if name_has_renorm w.name || weight_mismatch new_weights w then w
  else
    let nv := (List.lookup w.name new_weights).getD []
    { w with value := convert_weight input_older w.name w.shape nv }

/-! ### Policy loss with legal-move masking (tfprocess2.py lines 388-417)

Rows are logit/target vectors over the `n` move slots; a micro-batch is `b`
such rows.  `tf.nn.softmax_cross_entropy_with_logits` is the mathematical
cross-entropy of the labels against the log-softmax of the logits. -/

/-- `correct_policy`: when `mask_legal_moves` is configured, overwrite the
output logit of every move whose target is negative (the illegal-move
sentinel) with `0 - 1.0e10`; then flush negative targets to 0
(`tf.nn.relu`). -/
noncomputable def correct_policy {n : ℕ} (mask_legal_moves : Bool)
    (target output : Fin n → ℝ) : (Fin n → ℝ) × (Fin n → ℝ) :=
  let output' :=
    if mask_legal_moves then
      fun i => if 0 ≤ target i then output i else 0 - 1.0e10
    else output
  let target' := fun i => max (target i) 0
  (target', output')

/-- `tf.nn.softmax_cross_entropy_with_logits(labels, logits)` for one row:
`-∑ i labels i · (logits i - log ∑ j exp (logits j))`. -/
noncomputable def softmax_cross_entropy_with_logits {n : ℕ}
    (labels logits : Fin n → ℝ) : ℝ :=
  -∑ i, labels i * (logits i - Real.log (∑ j, Real.exp (logits j)))

/-- `tf.reduce_mean` over a micro-batch of `b` scalars. -/
noncomputable def reduce_mean (b : ℕ) (f : Fin b → ℝ) : ℝ :=
  (∑ r, f r) / b

/-- `policy_loss`: mean over the batch of the softmax cross-entropy of the
corrected target against the corrected logits. -/
noncomputable def policy_loss {b n : ℕ} (mask_legal_moves : Bool)
    (target output : Fin b → Fin n → ℝ) : ℝ :=
  reduce_mean b (fun r =>
    let corrected := correct_policy mask_legal_moves (target r) (output r)
    softmax_cross_entropy_with_logits corrected.1 corrected.2)

/-! ### Gradient accumulation and learning-rate scaling
(tfprocess2.py lines 365-367, 908-922, 933-935, 941-980)

Parameter tensors are flattened into a single list of scalars; the
optimizer state for the default optimizer (`tf.keras.optimizers.SGD` with
`momentum=0.9, nesterov=True`, line 366) is a `(weight, velocity)` pair per
scalar.  `loss_scale` is 1 in single precision (line 187) and the
single-replica `gradient_aggregator` is the identity, so `apply_grads`
reduces to global-norm clipping followed by the optimizer update. -/

/-- `TFProcess.merge_grads`: elementwise sum of two gradient lists. -/
noncomputable def merge_grads (grads new_grads : List ℝ) : List ℝ :=
  List.zipWith (· + ·) grads new_grads

/-- The accumulation in `train_step` (lines 949-963): start from `None`,
take the first micro-batch gradient as-is, merge the rest. -/
noncomputable def accumulate_grads (micro_grads : List (List ℝ)) : Option (List ℝ) :=
  micro_grads.foldl
    (fun acc ng =>
      match acc with
      | none => some ng
      | some gs => some (merge_grads gs ng))
    none

/-- `tf.linalg.global_norm`: the Euclidean norm of all gradients. -/
noncomputable def global_norm (grads : List ℝ) : ℝ :=
  Real.sqrt ((grads.map (fun g => g ^ 2)).sum)

/-- `tf.clip_by_global_norm(grads, clip_norm)`: scale by
`clip_norm / global_norm` when the global norm exceeds `clip_norm`. -/
noncomputable def clip_by_global_norm (grads : List ℝ) (clip_norm : ℝ) :
    List ℝ :=
  let gn := global_norm grads
  if gn > clip_norm then grads.map (fun g => g * (clip_norm / gn)) else grads

/-- One scalar update of `tf.keras.optimizers.SGD` with Nesterov momentum:
`v ← momentum·v - lr·g`, `w ← w + momentum·v - lr·g`. -/
noncomputable def sgd_nesterov_step (lr momentum : ℝ) (wv : ℝ × ℝ) (g : ℝ) : ℝ × ℝ :=
  let v := momentum * wv.2 - lr * g
  (wv.1 + momentum * v - lr * g, v)

/-- `TFProcess.apply_grads` (lines 908-922) followed by the optimizer step:
clip to `max_grad_norm · effective_batch_splits`, then apply SGD with
momentum 0.9 at the active learning rate. -/
noncomputable def apply_grads (state : List (ℝ × ℝ)) (grads : List ℝ)
    (lr max_grad_norm : ℝ) (effective_batch_splits : ℕ) : List (ℝ × ℝ) :=
  let clipped :=
    clip_by_global_norm grads (max_grad_norm * effective_batch_splits)
  List.zipWith (sgd_nesterov_step lr (9 / 10)) state clipped

/-- `train_step` lines 972-974: `effective_batch_splits = batch_splits`,
multiplied by `num_replicas_in_sync` when a distribution strategy is
present. -/
def effective_batch_splits (batch_splits num_replicas_in_sync : ℕ)
    (has_strategy : Bool) : ℕ :=
  if has_strategy then batch_splits * num_replicas_in_sync else batch_splits

/-- `train_step` line 975: `active_lr = lr / effective_batch_splits`. -/
noncomputable def active_lr (lr : ℝ) (ebs : ℕ) : ℝ :=
  lr / ebs

/-- The weight/velocity update performed by one `train_step` call, given
the per-micro-batch gradients (line 950's loop): sum the micro-batch
gradients, scale the learning rate down by the effective split count, clip
and apply.  `none` when `batch_splits = 0` (the loop body never ran and
`apply_gradients` would receive `None`). -/
noncomputable def train_step_update (state : List (ℝ × ℝ))
    (micro_grads : List (List ℝ)) (lr max_grad_norm : ℝ)
    (num_replicas_in_sync : ℕ) (has_strategy : Bool) :
    Option (List (ℝ × ℝ)) :=
  match accumulate_grads micro_grads with
  | none => none
  | some grads =>
    let ebs := effective_batch_splits micro_grads.length num_replicas_in_sync
      has_strategy
    some (apply_grads state grads (active_lr lr ebs) max_grad_norm ebs)

/-! ## Theorems -/

/-- C9: every `Metric` reachable through construction, `assign`,
`accumulate`, `merge` (with matching names) and `reset` satisfies
`count = 0 → value = 0`; consequently `get` returns 0 on an empty metric
and the running mean `value / count` otherwise. -/
theorem metric_reachable_mean_invariant (m : Metric) (h : Metric.Reachable m) :
    (m.count = 0 → m.value = 0) ∧
    (m.count = 0 → m.get = 0) ∧
    (0 < m.count → m.get = m.value / m.count) := by
  have inv : m.count = 0 → m.value = 0 := by
    induction h with
    | mkNew s l suf => intro _; rfl
    | assign m' v hm ih =>
        intro hc
        simp [Metric.assign] at hc
    | accumulate m' v hm ih =>
        intro hc
        by_cases h0 : m'.count > 0
        · simp [Metric.accumulate, h0] at hc
        · simp [Metric.accumulate, h0, Metric.assign] at hc
    | merge m' o hm ho hname ihm iho =>
        intro hc
        simp only [Metric.merge] at hc ⊢
        have h1 : m'.count = 0 := by omega
        have h2 : o.count = 0 := by omega
        rw [ihm h1, iho h2, add_zero]
    | reset m' hm ih => intro _; rfl
  refine ⟨inv, ?_, ?_⟩
  · intro hc
    simp only [Metric.get, if_pos hc]
    exact inv hc
  · intro hc
    simp only [Metric.get, if_neg (Nat.pos_iff_ne_zero.mp hc)]

/-- C9 witness: a concretely reachable metric (accumulate then merge)
satisfies the invariant. -/
theorem metric_reachable_mean_invariant_witness :
    let m := ((Metric.mkNew "P" "Policy Loss" "").accumulate 3).merge
      ((Metric.mkNew "P" "Policy" "").assign 5)
    (m.count = 0 → m.value = 0) ∧ (m.count = 0 → m.get = 0) ∧
      (0 < m.count → m.get = m.value / m.count) :=
  metric_reachable_mean_invariant _
    (Metric.Reachable.merge _ _
      (Metric.Reachable.accumulate _ _ (Metric.Reachable.mkNew _ _ _))
      (Metric.Reachable.assign _ _ (Metric.Reachable.mkNew _ _ _)) rfl)

/-- C5: `make_value_buckets` always lands in `[0, num_buckets)` for any WDL
input (including blended targets exactly at 0.0 or 1.0) whenever
`num_buckets ≥ 1`. -/
theorem make_value_buckets_range (wdl : ℚ × ℚ × ℚ) (n : ℕ) (hn : 1 ≤ n) :
    0 ≤ make_value_buckets wdl n ∧ make_value_buckets wdl n < (n : ℤ) := by
  have hn' : (1 : ℤ) ≤ (n : ℤ) := by exact_mod_cast hn
  unfold make_value_buckets clip_by_value
  constructor
  · exact le_min (le_max_right _ _) (by omega)
  · exact lt_of_le_of_lt (min_le_right _ _) (by omega)

/-- C5 witness: the blended target exactly at 1.0 with 100 buckets stays in
range. -/
theorem make_value_buckets_range_witness :
    1 ≤ 100 ∧ 0 ≤ make_value_buckets (1, 0, 0) 100 ∧
      make_value_buckets (1, 0, 0) 100 < (100 : ℤ) :=
  ⟨by decide, (make_value_buckets_range (1, 0, 0) 100 (by decide)).1,
    (make_value_buckets_range (1, 0, 0) 100 (by decide)).2⟩

/-- C2: with sorted boundaries `[b1, b2]` and values `[v0, v1, v2]`, the
learning rate computed in `process` is `v0` below `b1`, `v1` on `[b1, b2)`
and `v2` from `b2` on (as a function of `steps % total_steps`), scaled by
the linear warmup factor `(steps+1)/warmup_steps` while
`steps < warmup_steps` when warmup is configured. -/
theorem process_lr_piecewise_schedule (v0 v1 v2 : ℚ)
    (b1 b2 total_steps warmup_steps steps : ℕ) (hb : b1 ≤ b2) :
    process_lr [v0, v1, v2] [b1, b2] total_steps warmup_steps steps =
      (if steps % total_steps < b1 then v0
       else if steps % total_steps < b2 then v1 else v2) *
        (if 0 < warmup_steps ∧ steps < warmup_steps then
          (steps + 1 : ℚ) / (warmup_steps : ℚ) else 1) := by
  unfold process_lr
  have hbr : List.getD [v0, v1, v2]
      (bisect_right [b1, b2] (steps % total_steps)) 0 =
      (if steps % total_steps < b1 then v0
       else if steps % total_steps < b2 then v1 else v2) := by
    by_cases h1 : steps % total_steps < b1
    · simp [bisect_right, h1]
    · by_cases h2 : steps % total_steps < b2
      · simp [bisect_right, h1, h2]
      · simp [bisect_right, h1, h2]
  dsimp only
  rw [hbr]
  by_cases hw : 0 < warmup_steps ∧ steps < warmup_steps
  · simp [hw]
  · simp [hw]

/-- C2 witness: a concrete schedule evaluated in its warmup phase. -/
theorem process_lr_piecewise_schedule_witness :
    (100 : ℕ) ≤ 200 ∧
    process_lr [1 / 10, 1 / 100, 1 / 1000] [100, 200] 1000 10 5 =
      (if 5 % 1000 < 100 then (1 / 10 : ℚ)
       else if 5 % 1000 < 200 then 1 / 100 else 1 / 1000) *
        (if 0 < 10 ∧ 5 < 10 then (5 + 1 : ℚ) / (10 : ℚ) else 1) :=
  ⟨by decide,
    process_lr_piecewise_schedule (1 / 10) (1 / 100) (1 / 1000)
      100 200 1000 10 5 (by decide)⟩

/-- The per-weight SWA average of a value with itself is that value, as
long as the count denominator does not vanish. -/
theorem zipWith_swa_self (n : ℚ) (hne : n + 1 ≠ 0) (ws : List ℚ) :
    List.zipWith (fun w swa => swa * (n / (n + 1)) + w * (1 / (n + 1)))
      ws ws = ws := by
  induction ws with
  | nil => rfl
  | cons x xs ih =>
      simp only [List.zipWith_cons_cons, ih]
      congr 1
      field_simp
      ring

/-- A single `update_swa` against live weights equal to the shadow weights
leaves the shadow weights unchanged and caps the count. -/
theorem update_swa_fixed (swa_max_n : ℚ) (ws : List ℚ) (n : ℚ) (hn : 0 ≤ n) :
    update_swa swa_max_n ws ⟨ws, n⟩ =
      ⟨ws, min (n + 1) swa_max_n⟩ := by
  have hne : n + 1 ≠ 0 := by positivity
  unfold update_swa
  dsimp only
  rw [zipWith_swa_self n hne ws]

/-- C4: constant weights are an exact fixed point of the SWA running
average: if the shadow weights start equal to the live weights
`replicate m c` and the live weights never change, any number of
`update_swa` calls leaves the shadow weights exactly `replicate m c`, for
any initial count `n ≥ 0` (and the configured cap `swa_max_n ≥ 0`). -/
theorem swa_constant_weights_fixed_point (c : ℚ) (m : ℕ) (swa_max_n n : ℚ)
    (hmax : 0 ≤ swa_max_n) (hn : 0 ≤ n) (k : ℕ) :
    (iterate_update_swa swa_max_n (List.replicate m c) k
      ⟨List.replicate m c, n⟩).swa_weights = List.replicate m c := by
  induction k generalizing n with
  | zero => rfl
  | succ k ih =>
      have hn2 : 0 ≤ min (n + 1) swa_max_n :=
        le_min (by positivity) hmax
      simp only [iterate_update_swa, update_swa_fixed swa_max_n _ n hn]
      exact ih (min (n + 1) swa_max_n) hn2

/-- C4 witness: three updates of the constant weight 2 with cap 1 keep the
shadow weight exactly 2. -/
theorem swa_constant_weights_fixed_point_witness :
    (0 : ℚ) ≤ 1 ∧ (0 : ℚ) ≤ 0 ∧
    (iterate_update_swa 1 (List.replicate 4 2) 3
      ⟨List.replicate 4 2, 0⟩).swa_weights = List.replicate 4 2 :=
  ⟨by decide, by decide,
    swa_constant_weights_fixed_point 2 4 1 0 (by decide) (by decide) 3⟩

/-- C6 counterexample: with an exhausted test iterator, the evaluation
raises and `calculate_swa_summaries` escapes with the SWA weights still
swapped into the live model — the restore on line 1138 never runs. -/
theorem calculate_swa_summaries_exception_skips_restore :
    calculate_swa_summaries 1
        { weights := [1], swa_weights := [2], test_stream := 0,
          tested := 0, saved := [] } =
      Except.error
        { weights := [2], swa_weights := [2], test_stream := 0,
          tested := 0, saved := [] } ∧
    ([2] : List ℚ) ≠ [1] := by
  constructor
  · rfl
  · decide

/-- C6 amended: on a normal (non-exceptional) return,
`calculate_swa_summaries` restores every live weight to its value before
the call and only reads the SWA weights; `save_swa_weights` likewise
restores the live weights and saves the SWA weights unmodified.  On an
exceptional exit the SWA weights are still only read, but the live weights
are left swapped. -/
theorem calculate_swa_summaries_restore_frame (test_batches : ℕ)
    (s : TrainState) :
    (∀ s2, calculate_swa_summaries test_batches s = Except.ok s2 →
      s2.weights = s.weights ∧ s2.swa_weights = s.swa_weights) ∧
    (∀ s2, calculate_swa_summaries test_batches s = Except.error s2 →
      s2.swa_weights = s.swa_weights) ∧
    (save_swa_weights s).weights = s.weights ∧
    (save_swa_weights s).swa_weights = s.swa_weights ∧
    (save_swa_weights s).saved = s.saved ++ [s.swa_weights] := by
  refine ⟨?_, ?_, rfl, rfl, rfl⟩
  · intro s2 h
    unfold calculate_swa_summaries calculate_test_summaries at h
    by_cases hc : test_batches ≤ s.test_stream
    · simp only [hc, if_true] at h
      cases h
      exact ⟨rfl, rfl⟩
    · simp only [hc, if_false] at h
      cases h
  · intro s2 h
    unfold calculate_swa_summaries calculate_test_summaries at h
    by_cases hc : test_batches ≤ s.test_stream
    · simp only [hc, if_true] at h
      cases h
    · simp only [hc, if_false] at h
      cases h
      rfl

/-- C6 amended witness: a successful SWA evaluation pass restores the
live weights. -/
theorem calculate_swa_summaries_restore_frame_witness :
    calculate_swa_summaries 2
        { weights := [1], swa_weights := [2], test_stream := 3,
          tested := 0, saved := [] } =
      Except.ok
        { weights := [1], swa_weights := [2], test_stream := 1,
          tested := 2, saved := [] } ∧
    ([1] : List ℚ) = [1] ∧ ([2] : List ℚ) = [2] :=
  ⟨by rfl,
    (calculate_swa_summaries_restore_frame 2
        { weights := [1], swa_weights := [2], test_stream := 3,
          tested := 0, saved := [] }).1
      _ (by rfl) |>.1,
    (calculate_swa_summaries_restore_frame 2
        { weights := [1], swa_weights := [2], test_stream := 3,
          tested := 0, saved := [] }).1
      _ (by rfl) |>.2⟩

/-- C8: the `process_loop` batch-size check, on a batch size that is not a
multiple of the configured `virtual_batch_size`, raises `AttributeError`
for the undefined attribute `virtual_batch_sizes` — never the intended
`ValueError` naming the required multiple. -/
theorem process_loop_batch_check_attribute_error :
    process_loop_batch_check
        { virtual_batch_size := some 64, num_batch_splits := 1 } 96 =
      Except.error (PyError.attributeError "virtual_batch_sizes") ∧
    (∀ (cfg : ProcessLoopCfg) (batch_size : ℕ) (msg : String),
      process_loop_batch_check cfg batch_size ≠
        Except.error (PyError.valueError msg)) ∧
    (∀ (cfg : ProcessLoopCfg) (batch_size : ℕ),
      (∀ vbs, cfg.virtual_batch_size = some vbs → vbs ≠ 0 →
        batch_size % vbs = 0) →
      process_loop_batch_check cfg batch_size = Except.ok ()) := by
  refine ⟨by rfl, ?_, ?_⟩
  · intro cfg batch_size msg
    unfold process_loop_batch_check tfprocess_getattr
    cases cfg.virtual_batch_size with
    | none => simp
    | some vbs =>
        by_cases hc : vbs ≠ 0 ∧ batch_size % vbs ≠ 0
        · simp [hc]
        · simp [hc]
  · intro cfg batch_size hok
    unfold process_loop_batch_check
    cases hv : cfg.virtual_batch_size with
    | none => rfl
    | some vbs =>
        have : ¬(vbs ≠ 0 ∧ batch_size % vbs ≠ 0) := by
          rintro ⟨h0, hm⟩
          exact hm (hok vbs hv h0)
        simp [this]

/-- C8 witness: the mismatching input never yields the documented
`ValueError`, and a conforming batch size passes the check. -/
theorem process_loop_batch_check_attribute_error_witness :
    process_loop_batch_check
        { virtual_batch_size := some 64, num_batch_splits := 1 } 96 ≠
      Except.error (PyError.valueError
        "batch_size must be a multiple of 64") ∧
    process_loop_batch_check
        { virtual_batch_size := some 64, num_batch_splits := 1 } 128 =
      Except.ok () :=
  ⟨process_loop_batch_check_attribute_error.2.1 _ 96 _,
    process_loop_batch_check_attribute_error.2.2 _ 128
      (fun vbs hv _ => by
        injection hv with h
        subst h
        decide)⟩

/-- C10: when SWA is enabled, `process_loop` floor-halves the
caller-supplied `test_batches` before any step, and both the regular and
the SWA test pass then evaluate exactly that many micro-batches on a
normal pass; with SWA disabled the regular pass evaluates all of them. -/
theorem process_loop_halves_test_batches (swa_enabled : Bool)
    (test_batches : ℕ) (s : TrainState) :
    (swa_enabled = true →
      process_loop_test_batches swa_enabled test_batches = test_batches / 2) ∧
    (swa_enabled = false →
      process_loop_test_batches swa_enabled test_batches = test_batches) ∧
    (∀ s2, calculate_test_summaries
        (process_loop_test_batches swa_enabled test_batches) s =
        Except.ok s2 →
      s2.tested = s.tested +
        process_loop_test_batches swa_enabled test_batches) ∧
    (∀ s3, calculate_swa_summaries
        (process_loop_test_batches swa_enabled test_batches) s =
        Except.ok s3 →
      s3.tested = s.tested +
        process_loop_test_batches swa_enabled test_batches) := by
  refine ⟨?_, ?_, ?_, ?_⟩
  · intro h; simp [process_loop_test_batches, h]
  · intro h; simp [process_loop_test_batches, h]
  · intro s2 h
    unfold calculate_test_summaries at h
    by_cases hc : process_loop_test_batches swa_enabled test_batches ≤
        s.test_stream
    · simp only [hc, if_true] at h
      cases h
      rfl
    · simp only [hc, if_false] at h
      cases h
  · intro s3 h
    unfold calculate_swa_summaries calculate_test_summaries at h
    by_cases hc : process_loop_test_batches swa_enabled test_batches ≤
        s.test_stream
    · simp only [hc, if_true] at h
      cases h
      rfl
    · simp only [hc, if_false] at h
      cases h

/-- C10 witness: `test_batches = 5` with SWA enabled gives 2 micro-batches
per test pass, for both the regular and the SWA pass. -/
theorem process_loop_halves_test_batches_witness :
    (true = true →
      process_loop_test_batches true 5 = 5 / 2) ∧
    ((2 : ℕ) = 0 + 2) ∧ ((2 : ℕ) = 0 + 2) :=
  ⟨(process_loop_halves_test_batches true 5
      { weights := [1], swa_weights := [2], test_stream := 2,
        tested := 0, saved := [] }).1,
    (process_loop_halves_test_batches true 5
      { weights := [1], swa_weights := [2], test_stream := 2,
        tested := 0, saved := [] }).2.2.1
      { weights := [1], swa_weights := [2], test_stream := 0,
        tested := 2, saved := [] } (by rfl),
    (process_loop_halves_test_batches true 5
      { weights := [1], swa_weights := [2], test_stream := 2,
        tested := 0, saved := [] }).2.2.2
      { weights := [1], swa_weights := [2], test_stream := 0,
        tested := 2, saved := [] } (by rfl)⟩

/-- Mapping the payload of an `Except` preserves exactly the error
outcomes. -/
theorem except_map_error_iff {ε α β : Type _} (f : α → β) (x : Except ε α) :
    (∃ e, Except.map f x = Except.error e) ↔ ∃ e, x = Except.error e := by
  cases x <;> simp [Except.map]

/-- With `ignore_errors = True` the loop never raises: skipped tensors
("renorm" or mismatched) keep their prior value and every other tensor is
assigned the converted protobuf values. -/
theorem replace_weights_loop_ignore_ok (io : Bool)
    (nw : List (String × List ℚ)) (ws : List ModelWeight) :
    replace_weights_loop io nw true ws =
      Except.ok (ws.map (replace_weights_result io nw)) := by
  induction ws with
  | nil => rfl
  | cons w rest ih =>
      unfold replace_weights_loop
      by_cases hr : name_has_renorm w.name = true
      · simp [hr, ih, Except.map, replace_weights_result]
      · cases hl : List.lookup w.name nw with
        | none =>
            simp [hr, hl, ih, Except.map, replace_weights_result,
              weight_mismatch]
        | some nv =>
            by_cases hsz : shape_size w.shape ≠ nv.length
            · simp [hr, hl, hsz, ih, Except.map, replace_weights_result,
                weight_mismatch]
            · simp [hr, hl, hsz, ih, Except.map, replace_weights_result,
                weight_mismatch]

/-- With `ignore_errors = False` the loop raises exactly when some
non-"renorm" tensor has a weight-loading mismatch. -/
theorem replace_weights_loop_error_iff (io : Bool)
    (nw : List (String × List ℚ)) (ws : List ModelWeight) :
    (∃ e, replace_weights_loop io nw false ws = Except.error e) ↔
      ∃ w ∈ ws, name_has_renorm w.name = false ∧
        weight_mismatch nw w = true := by
  induction ws with
  | nil => simp [replace_weights_loop]
  | cons w rest ih =>
      unfold replace_weights_loop
      by_cases hr : name_has_renorm w.name = true
      · rw [if_pos hr, except_map_error_iff, ih]
        simp [hr]
      · rw [if_neg hr]
        cases hl : List.lookup w.name nw with
        | none =>
            simp only [hl]
            constructor
            · intro _
              exact ⟨w, List.mem_cons_self w rest,
                by simp [hr], by simp [weight_mismatch, hl]⟩
            · intro _
              exact ⟨"No values for tensor " ++ w.name ++ " in protobuf",
                rfl⟩
        | some nv =>
            simp only [hl]
            by_cases hsz : shape_size w.shape ≠ nv.length
            · rw [if_pos hsz]
              constructor
              · intro _
                exact ⟨w, List.mem_cons_self w rest,
                  by simp [hr], by simp [weight_mismatch, hl, hsz]⟩
              · intro _
                exact ⟨"Tensor " ++ w.name ++ " has wrong length.", rfl⟩
            · rw [if_neg hsz]
              rw [except_map_error_iff, ih]
              constructor
              · rintro ⟨w', hw', hpair⟩
                exact ⟨w', List.mem_cons_of_mem w hw', hpair⟩
              · rintro ⟨w', hw', hren, hmis⟩
                rcases List.mem_cons.mp hw' with hweq | hwmem
                · subst hweq
                  rw [weight_mismatch, hl] at hmis
                  simp at hmis
                  exact absurd hmis hsz
                · exact ⟨w', hwmem, hren, hmis⟩

/-- C7: a weight-loading mismatch — a tensor missing from the protobuf or
one whose value's element count differs from the tensor's shape product —
makes `replace_weights` raise iff `ignore_errors` is `False`; with
`ignore_errors` the mismatched tensor keeps its prior value and every
non-mismatched tensor is still assigned its converted protobuf values. -/
theorem replace_weights_mismatch_fatal_iff (io : Bool)
    (nw : List (String × List ℚ)) (ws : List ModelWeight) :
    replace_weights_loop io nw true ws =
      Except.ok (ws.map (replace_weights_result io nw)) ∧
    ((∃ e, replace_weights_loop io nw false ws = Except.error e) ↔
      ∃ w ∈ ws, name_has_renorm w.name = false ∧
        weight_mismatch nw w = true) :=
  ⟨replace_weights_loop_ignore_ok io nw ws,
    replace_weights_loop_error_iff io nw ws⟩

/-- C7 witness: one matching tensor, one missing from the protobuf;
loading with `ignore_errors` keeps the mismatched tensor's prior value and
assigns the other, while the strict mode raises. -/
theorem replace_weights_mismatch_fatal_iff_witness :
    replace_weights_loop false [("a:0", [5])] true
        [⟨"a:0", [1], [7]⟩, ⟨"b:0", [1], [8]⟩] =
      Except.ok [⟨"a:0", [1], [5]⟩, ⟨"b:0", [1], [8]⟩] ∧
    (∃ e, replace_weights_loop false [("a:0", [5])] false
        [⟨"a:0", [1], [7]⟩, ⟨"b:0", [1], [8]⟩] = Except.error e) := by
  constructor
  · rw [(replace_weights_mismatch_fatal_iff false [("a:0", [5])]
        [⟨"a:0", [1], [7]⟩, ⟨"b:0", [1], [8]⟩]).1]
    rfl
  · rw [(replace_weights_mismatch_fatal_iff false [("a:0", [5])]
        [⟨"a:0", [1], [7]⟩, ⟨"b:0", [1], [8]⟩]).2]
    exact ⟨⟨"b:0", [1], [8]⟩, by simp, by rfl, by rfl⟩

/-- C3: with legal-move masking enabled, `policy_loss` is invariant to the
logit values assigned to illegal moves: two output batches agreeing on all
coordinates where the target is `≥ 0` produce the same loss. -/
theorem policy_loss_illegal_logit_invariant {b n : ℕ}
    (target o1 o2 : Fin b → Fin n → ℝ)
    (h : ∀ r i, 0 ≤ target r i → o1 r i = o2 r i) :
    policy_loss true target o1 = policy_loss true target o2 := by
  have hcp : ∀ r, correct_policy true (target r) (o1 r) =
      correct_policy true (target r) (o2 r) := by
    intro r
    unfold correct_policy
    simp only [if_true]
    refine congrArg _ ?_
    funext i
    by_cases hi : 0 ≤ target r i
    · simp only [if_pos hi]
      exact h r i hi
    · simp only [if_neg hi]
  unfold policy_loss reduce_mean
  refine congrArg (· / (b : ℝ)) ?_
  apply Finset.sum_congr rfl
  intro r _
  dsimp only
  rw [hcp r]

/-- C3 witness: a batch where every move is illegal; changing the illegal
logits from 0 to 5 leaves the loss unchanged. -/
theorem policy_loss_illegal_logit_invariant_witness :
    (∀ (r : Fin 1) (i : Fin 2),
      0 ≤ (fun (_ : Fin 1) (_ : Fin 2) => (-1 : ℝ)) r i →
        (fun (_ : Fin 1) (_ : Fin 2) => (0 : ℝ)) r i =
          (fun (_ : Fin 1) (_ : Fin 2) => (5 : ℝ)) r i) ∧
    policy_loss true (fun (_ : Fin 1) (_ : Fin 2) => (-1 : ℝ))
        (fun (_ : Fin 1) (_ : Fin 2) => (0 : ℝ)) =
      policy_loss true (fun (_ : Fin 1) (_ : Fin 2) => (-1 : ℝ))
        (fun (_ : Fin 1) (_ : Fin 2) => (5 : ℝ)) := by
  constructor
  · intro r i hri
    norm_num at hri
  · exact policy_loss_illegal_logit_invariant _ _ _
      (by intro r i hri; norm_num at hri)

/-- Merging the `k`-fold gradient sum with one more copy scales it to
`k + 1`. -/
theorem merge_grads_map_smul (k : ℝ) (g : List ℝ) :
    merge_grads (g.map (fun x => k * x)) g =
      g.map (fun x => (k + 1) * x) := by
  induction g with
  | nil => rfl
  | cons x xs ih =>
      simp only [List.map_cons, merge_grads, List.zipWith_cons_cons] at ih ⊢
      rw [ih]
      refine congrArg (· :: _) ?_
      ring

/-- The accumulation loop over `t` further identical micro-batch gradients
starting from the `k`-fold sum yields the `(k + t)`-fold sum. -/
theorem accumulate_grads_go (g : List ℝ) (t : ℕ) : ∀ (k : ℝ),
    (List.replicate t g).foldl
      (fun acc ng =>
        match acc with
        | none => some ng
        | some gs => some (merge_grads gs ng))
      (some (g.map (fun x => k * x))) =
      some (g.map (fun x => (k + t) * x)) := by
  induction t with
  | zero => intro k; simp
  | succ t ih =>
      intro k
      rw [List.replicate_succ, List.foldl_cons]
      dsimp only
      rw [merge_grads_map_smul, ih (k + 1)]
      refine congrArg (fun f => some (g.map f)) ?_
      funext x
      push_cast
      ring

/-- Summing `s ≥ 1` identical micro-batch gradients in the `train_step`
loop yields `s` times the single gradient. -/
theorem accumulate_grads_replicate (g : List ℝ) (s : ℕ) (hs : 1 ≤ s) :
    accumulate_grads (List.replicate s g) =
      some (g.map (fun x => (s : ℝ) * x)) := by
  obtain ⟨t, rfl⟩ : ∃ t, s = t + 1 := ⟨s - 1, by omega⟩
  unfold accumulate_grads
  rw [List.replicate_succ, List.foldl_cons]
  dsimp only
  have h1 : g = g.map (fun x => (1 : ℝ) * x) := by simp
  rw [show (some g : Option (List ℝ)) =
      some (g.map (fun x => (1 : ℝ) * x)) from congrArg some h1]
  rw [accumulate_grads_go g t 1]
  refine congrArg (fun f => some (g.map f)) ?_
  funext x
  push_cast
  ring

/-- Squared entries of a scaled gradient list sum to `s²` times the
original sum. -/
theorem sum_sq_map_smul (s : ℝ) (g : List ℝ) :
    ((g.map (fun x => s * x)).map (fun x => x ^ 2)).sum =
      s ^ 2 * (g.map (fun x => x ^ 2)).sum := by
  induction g with
  | nil => simp
  | cons x xs ih =>
      simp only [List.map_cons, List.sum_cons, ih]
      ring

/-- The global gradient norm is positively homogeneous. -/
theorem global_norm_smul (s : ℝ) (hs : 0 ≤ s) (g : List ℝ) :
    global_norm (g.map (fun x => s * x)) = s * global_norm g := by
  unfold global_norm
  rw [sum_sq_map_smul, Real.sqrt_mul (sq_nonneg s), Real.sqrt_sq hs]

/-- Scaling the gradients by `s > 0` and the clip norm by the same factor
scales the clipped gradients by `s`. -/
theorem clip_by_global_norm_smul (s c : ℝ) (hs : 0 < s) (g : List ℝ) :
    clip_by_global_norm (g.map (fun x => s * x)) (c * s) =
      (clip_by_global_norm g c).map (fun x => s * x) := by
  unfold clip_by_global_norm
  dsimp only
  rw [global_norm_smul s hs.le]
  by_cases hgn : global_norm g > c
  · rw [if_pos (by rw [mul_comm c s]; exact (mul_lt_mul_left hs).mpr hgn),
      if_pos hgn]
    simp only [List.map_map]
    refine congrArg (fun f => g.map f) ?_
    funext x
    have h1 : c * s / (s * global_norm g) = c / global_norm g := by
      rw [mul_comm c s, mul_div_mul_left _ _ (ne_of_gt hs)]
    simp only [Function.comp]
    rw [h1]
    ring
  · rw [if_neg (by
      intro hcon
      rw [mul_comm c s] at hcon
      exact hgn ((mul_lt_mul_left hs).mp hcon)), if_neg hgn]

/-- Scaling a gradient by `s` and the learning rate by `1/s` leaves the
Nesterov-momentum SGD update unchanged. -/
theorem sgd_nesterov_step_scale (lr m c s : ℝ) (hs : s ≠ 0) (wv : ℝ × ℝ) :
    sgd_nesterov_step (lr / s) m wv (s * c) = sgd_nesterov_step lr m wv c := by
  unfold sgd_nesterov_step
  dsimp only
  have h : lr / s * (s * c) = lr * c := by
    field_simp
    ring
  rw [h]

/-- C1: `train_step` sets `active_lr = lr / (batch_splits ×
num_replicas_in_sync)`, and summing `s ≥ 1` identical micro-batch
gradients then applying the (clip + Nesterov SGD) step at `lr / s` with the
clip norm scaled by `s` produces exactly the weight update of the single
gradient at the full rate `lr`. -/
theorem train_step_grad_sum_lr_scaling (state : List (ℝ × ℝ)) (g : List ℝ)
    (lr max_grad_norm : ℝ) (s num_replicas : ℕ) (hs : 1 ≤ s) :
    effective_batch_splits s num_replicas true = s * num_replicas ∧
    active_lr lr (effective_batch_splits s num_replicas true) =
      lr / ((s : ℝ) * (num_replicas : ℝ)) ∧
    train_step_update state (List.replicate s g) lr max_grad_norm 1 false =
      train_step_update state [g] lr max_grad_norm 1 false := by
  have hs0 : (0 : ℝ) < (s : ℝ) := by exact_mod_cast hs
  refine ⟨rfl, ?_, ?_⟩
  · show lr / ((s * num_replicas : ℕ) : ℝ) = lr / ((s : ℝ) * num_replicas)
    rw [Nat.cast_mul]
  · unfold train_step_update
    rw [accumulate_grads_replicate g s hs,
      show accumulate_grads [g] = some g from rfl]
    dsimp only
    have hebs : ∀ (x y : ℕ), effective_batch_splits x y false = x :=
      fun x y => rfl
    rw [hebs, hebs]
    simp only [List.length_replicate, List.length_singleton]
    unfold apply_grads active_lr
    simp only [Nat.cast_one, div_one, mul_one]
    rw [clip_by_global_norm_smul s max_grad_norm hs0 g]
    rw [List.zipWith_map_right]
    refine congrArg some ?_
    refine congrArg
      (fun f => List.zipWith f state (clip_by_global_norm g max_grad_norm))
      ?_
    funext wv c
    exact sgd_nesterov_step_scale lr (9 / 10) c s (ne_of_gt hs0) wv

/-- C1 witness: two identical micro-batch gradients applied at half the
learning rate match the single gradient at the full rate. -/
theorem train_step_grad_sum_lr_scaling_witness :
    (1 : ℕ) ≤ 2 ∧
    effective_batch_splits 2 3 true = 2 * 3 ∧
    train_step_update [((1 : ℝ), 0)] (List.replicate 2 [3]) 1 10 1 false =
      train_step_update [((1 : ℝ), 0)] [[3]] 1 10 1 false :=
  ⟨by decide,
    (train_step_grad_sum_lr_scaling [((1 : ℝ), 0)] [3] 1 10 2 3
      (by decide)).1,
    (train_step_grad_sum_lr_scaling [((1 : ℝ), 0)] [3] 1 10 2 3
      (by decide)).2.2⟩

end LcZero
